import Mathlib

/-!
Shallow embedding of `src/models/pso.py` (particle swarm optimization engine
with three position-encoding strategies).  Real numbers are modelled by `ℚ`,
parameter vectors by `List ℚ`, numpy arrays of vectors by `List (List ℚ)`.
The process-wide random source (`random.uniform(0, 1)`) is modelled by a
stream `rng : ℕ → ℚ` together with an explicit cursor `k` that advances by
one per draw.

numpy aliasing semantics that the embedding must reproduce faithfully:
`a = pos[n]`, `p = p_best_pos[n]` and `g_best_pos = p_best_pos[best_parti]`
are *views* into the underlying 2-D arrays, so a later in-place row write
(`pos[n] = new_a`, `p_best_pos[n] = new_a`) changes the values subsequently
read through those views.  In the pure embedding this is rendered by reading
the current array contents again at each use site.
-/

namespace PsoModel

abbrev Vec := List ℚ

/-- Elementwise vector addition (numpy `+` on same-shape arrays). -/
def vadd (x y : Vec) : Vec := List.zipWith (· + ·) x y

/-- Elementwise vector subtraction (numpy `-` on same-shape arrays). -/
def vsub (x y : Vec) : Vec := List.zipWith (· - ·) x y

/-- Scalar times vector (numpy scalar broadcasting). -/
def smul (s : ℚ) (v : Vec) : Vec := v.map (fun x => s * x)

/-- Default inertia weight `w_ = 0.730` of `PSO.update_vel`. -/
def w_default : ℚ := 730 / 1000

/-- Default acceleration coefficient `p_ = 2.05` of `PSO.update_vel`. -/
def p_default : ℚ := 205 / 100

/-- `PSO.update_vel(self, a, va, p, g, w_=0.730, p_=2.05)`:
draws `ro1 = random.uniform(0,1)`, `ro2 = random.uniform(0,1)` (two draws
from the global stream, modelled by the cursor `k`) and returns
`w_ * (va + p_ * ro1 * (p - a) + p_ * ro2 * (g - a))` together with the
advanced cursor. -/
def update_vel (rng : ℕ → ℚ) (k : ℕ) (a va p g : Vec) (w_ p_ : ℚ) :
    Vec × ℕ :=
  let ro1 := rng k
  let ro2 := rng (k + 1)
  (smul w_ (vadd va (vadd (smul (p_ * ro1) (vsub p a))
      (smul (p_ * ro2) (vsub g a)))), k + 2)

/-- `self.parti_count = 50` (hard-coded swarm size). -/
def parti_count : ℕ := 50

/-- `self.loop = 200` (hard-coded iteration budget). -/
def loop_count : ℕ := 200

/-- Mutable swarm state of `PSO.compute` plus the random-stream cursor. -/
structure State where
  pos : List Vec
  vel : List Vec
  p_best_pos : List Vec
  p_best_scores : List ℚ
  best_parti : ℕ
  k : ℕ
  deriving Repr

/-- `np.argmin` on the running-best pair `(bi, bv)` over the remaining list,
`i` being the index of the list head; strict `<` keeps the first occurrence
of the minimum. -/
def argminAux (l : List ℚ) (bi : ℕ) (bv : ℚ) (i : ℕ) : ℕ :=
  match l with
  | [] => bi
  | x :: rest => if x < bv then argminAux rest i x (i + 1)
                 else argminAux rest bi bv (i + 1)

/-- `np.argmin(scores)`: index of the first occurrence of the minimum
(numpy documents first-occurrence semantics); `0` on the empty list, where
numpy would raise. -/
def argmin (l : List ℚ) : ℕ :=
  match l with
  | [] => 0
  | x :: rest => argminAux rest 0 x 1

/-- Body of the inner `for n in range(self.parti_count)` loop of
`PSO.compute`, lines 74-91, for particle `n`:

    a = pos[n]; va = vel[n]; p = p_best_pos[n]
    new_a = self.update_pos(a, va); pos[n] = new_a
    new_va = self.update_vel(a, va, p, g_best_pos); vel[n] = new_va
    score = self.evaluate(new_a)
    if score < p_best_scores[n]: p_best_scores[n] = score; p_best_pos[n] = new_a

`a` is a view of `pos[n]`, and `pos[n] = new_a` runs before
`self.update_vel(a, ...)`, so the `a` seen by `update_vel` holds the values
of `new_a`; likewise `g_best_pos` is a view of `p_best_pos[best_parti]`, so
its value at the `update_vel` call site is the current row contents. -/
def step (cost : Vec → ℚ) (upd : Vec → Vec → Vec) (rng : ℕ → ℚ)
    (n : ℕ) (st : State) : State :=
  let a := st.pos.getD n []
  let va := st.vel.getD n []
  let p := st.p_best_pos.getD n []
  let new_a := upd a va
  let pos' := st.pos.set n new_a
  let g := st.p_best_pos.getD st.best_parti []
  let vk := update_vel rng st.k new_a va p g w_default p_default
  let vel' := st.vel.set n vk.1
  let score := cost new_a
  if score < st.p_best_scores.getD n 0 then
    { pos := pos', vel := vel',
      p_best_pos := st.p_best_pos.set n new_a,
      p_best_scores := st.p_best_scores.set n score,
      best_parti := st.best_parti, k := vk.2 }
  else
    { pos := pos', vel := vel',
      p_best_pos := st.p_best_pos,
      p_best_scores := st.p_best_scores,
      best_parti := st.best_parti, k := vk.2 }

/-- State reached after the inner loop has processed particles
`0, 1, ..., m-1` of the current sweep. -/
def stateAfter (cost : Vec → ℚ) (upd : Vec → Vec → Vec) (rng : ℕ → ℚ)
    (m : ℕ) (st : State) : State :=
  (List.range m).foldl (fun s n => step cost upd rng n s) st

/-- One iteration of the outer `for t in tqdm(range(self.loop))` loop:
the inner particle loop followed by the global-best recomputation
`best_parti = np.argmin(p_best_scores); g_best_pos = p_best_pos[best_parti]`
(the position is a view, so only the index is state). -/
def sweep (cost : Vec → ℚ) (upd : Vec → Vec → Vec) (rng : ℕ → ℚ)
    (N : ℕ) (st : State) : State :=
  let st' := stateAfter cost upd rng N st
  { st' with best_parti := argmin st'.p_best_scores }

/-- `t` consecutive sweeps. -/
def sweeps (cost : Vec → ℚ) (upd : Vec → Vec → Vec) (rng : ℕ → ℚ)
    (N : ℕ) : ℕ → State → State
  | 0, st => st
  | t + 1, st => sweep cost upd rng N (sweeps cost upd rng N t st)

/-- Initialization part of `PSO.compute`, lines 62-69:

    pos = self.init_pos()
    vel = np.zeros((self.parti_count, self.param_count))
    p_best_pos = copy.deepcopy(pos)
    p_best_scores = [self.evaluate(p) for p in pos]
    best_parti = np.argmin(p_best_scores); g_best_pos = p_best_pos[best_parti]

`pos0` is the strategy's `init_pos()` result, `N = parti_count`,
`D = param_count`; the random cursor starts wherever the caller says. -/
def initState (cost : Vec → ℚ) (pos0 : List Vec) (N D : ℕ) : State :=
  let scores := pos0.map cost
  { pos := pos0,
    vel := List.replicate N (List.replicate D 0),
    p_best_pos := pos0,
    p_best_scores := scores,
    best_parti := argmin scores,
    k := 0 }

/-- `PSO.compute`: initialization, `loop_count` sweeps over `parti_count`
particles, and the final `return g_best_pos` (a view of
`p_best_pos[best_parti]`). -/
def compute (cost : Vec → ℚ) (upd : Vec → Vec → Vec) (rng : ℕ → ℚ)
    (pos0 : List Vec) (D : ℕ) : Vec :=
  let st := sweeps cost upd rng parti_count loop_count
      (initState cost pos0 parti_count D)
  st.p_best_pos.getD st.best_parti []

/-! ### Encoding strategies -/

namespace PSO_POWER

/-- `self.a_min = -2.0`. -/
def a_min : ℚ := -2

/-- `self.a_max = 2.0`. -/
def a_max : ℚ := 2

/-- `PSO_POWER.update_pos`: `new_a = a + va`, then
`np.where(new_a < a_min, a_min, new_a)` and
`np.where(new_a > a_max, a_max, new_a)`. -/
def update_pos (a va : Vec) : Vec :=
  let new_a := vadd a va
  let new_a := new_a.map (fun x => if x < a_min then a_min else x)
  let new_a := new_a.map (fun x => if x > a_max then a_max else x)
  new_a

end PSO_POWER

/-- `random.uniform(lo, hi)` at cursor `k`: `lo + (hi - lo) * u` where `u`
is the stream value (Python allows `lo > hi`, as `PSO_GAUSS6.init_pos`
uses for coordinate 4). -/
def uniform (rng : ℕ → ℚ) (k : ℕ) (lo hi : ℚ) : ℚ :=
  lo + (hi - lo) * rng k

namespace PSO_GAUSS4

/-- `PSO_GAUSS4.init_pos`: `parti_count` rows, each built from four
`random.uniform` draws — coordinates 0-1 from `uniform(-0.2, 0.2)`,
coordinates 2-3 from `uniform(0, 1)`.  The row length is the literal 4,
independent of `param_count`. -/
def init_pos (rng : ℕ → ℚ) (N : ℕ) : List Vec :=
  (List.range N).map (fun j =>
    [uniform rng (4 * j) (-2/10) (2/10),
     uniform rng (4 * j + 1) (-2/10) (2/10),
     uniform rng (4 * j + 2) 0 1,
     uniform rng (4 * j + 3) 0 1])

/-- `PSO_GAUSS4.update_pos`: `new_a = a + va`, then in-place clamping of
indices `i < int(len(new_a)/2)` to `[-0.2, 0.2]` (`if > 0.2` then `0.2`,
`elif < -0.2` then `-0.2`) and of the remaining indices to `[0, 1]`. -/
def update_pos (a va : Vec) : Vec :=
  let new_a := vadd a va
  let half := new_a.length / 2
  new_a.mapIdx (fun i x =>
    if i < half then
      if x > 2/10 then 2/10 else if x < -2/10 then -2/10 else x
    else
      if x > 1 then 1 else if x < 0 then 0 else x)

end PSO_GAUSS4

namespace PSO_GAUSS6

/-- `PSO_GAUSS6.init_pos`: `parti_count` rows, each built from six
`random.uniform` draws — coordinates 0-1 from `uniform(-0.2, 0.2)`,
coordinates 2-3 from `uniform(0, 1)`, coordinate 4 from
`uniform(-0.5, -2.0)` (reversed bounds, legal in Python), coordinate 5
from `uniform(0.5, 2.0)`.  The row length is the literal 6. -/
def init_pos (rng : ℕ → ℚ) (N : ℕ) : List Vec :=
  (List.range N).map (fun j =>
    [uniform rng (6 * j) (-2/10) (2/10),
     uniform rng (6 * j + 1) (-2/10) (2/10),
     uniform rng (6 * j + 2) 0 1,
     uniform rng (6 * j + 3) 0 1,
     uniform rng (6 * j + 4) (-1/2) (-2),
     uniform rng (6 * j + 5) (1/2) 2])

/-- `PSO_GAUSS6.update_pos`: `new_a = a + va`, then in-place clamping of
indices 0-1 to `[-0.2, 0.2]`, indices 2-3 to `[0, 1]`, index 4 to
`[-2.0, -0.5]` (`if > -0.5` then `-0.5`, `elif < -2.0` then `-2.0`) and
index 5 to `[0.5, 2.0]`. -/
def update_pos (a va : Vec) : Vec :=
  let new_a := vadd a va
  new_a.mapIdx (fun i x =>
    if i < 2 then
      if x > 2/10 then 2/10 else if x < -2/10 then -2/10 else x
    else if i < 4 then
      if x > 1 then 1 else if x < 0 then 0 else x
    else if i = 4 then
      if x > -1/2 then -1/2 else if x < -2 then -2 else x
    else if i = 5 then
      if x > 2 then 2 else if x < 1/2 then 1/2 else x
    else x)

end PSO_GAUSS6

/-! ### Cost function `PSO.evaluate`

`PSO.evaluate` calls the external simulation pipeline `cycloid`, `RK4` and
`torque`, which live outside this repository's source; they enter the
embedding as opaque function parameters (`cyc`, `rk4`, `trq`), as does the
configuration constant `Nrk`. -/

/-- `np.abs(S[0 : 2 * Nrk + 1, 2]).max()`: the maximum absolute value of
column 2 over rows `0 .. 2*Nrk` of `S` (slicing clips at the array end;
`0` for an empty slice, where numpy would raise). -/
def maxAbsCol2 (S : List (List ℚ)) (nrk : ℕ) : ℚ :=
  ((S.take (2 * nrk + 1)).map (fun row => |row.getD 2 0|)).foldr max 0

/-- `PSO.evaluate(self, a)`:

    S = cycloid(a, self.cfg)
    if np.abs(S[0 : 2 * Nrk + 1, 2]).max() >= 45: return 10 ** 6
    X1, X2 = RK4(S)
    trq = torque(S, X1, X2)
    return sum(np.absolute(trq))
-/
def evaluate (cyc : Vec → List (List ℚ))
    (rk4 : List (List ℚ) → List ℚ × List ℚ)
    (trq : List (List ℚ) → List ℚ → List ℚ → List ℚ)
    (nrk : ℕ) (a : Vec) : ℚ :=
  let S := cyc a
  if maxAbsCol2 S nrk ≥ 45 then 10 ^ 6
  else
    let X := rk4 S
    ((trq S X.1 X.2).map (fun x => |x|)).sum

/-! ### Exception-aware model of `PSO.compute`

The base class `PSO` leaves `init_pos` and `update_pos` raising
`NotImplementedError`.  To express Python's exception propagation the
computation is replayed in `Except`, with `init_pos`/`update_pos` as
fallible parameters, and with a counter of how many times `evaluate` has
been called threaded alongside (the counter survives an abort, as the
number of evaluations made before the exception was raised). -/

/-- The only exception kind the engine's own code raises. -/
inductive PsoErr where
  | notImplemented
  deriving Repr, DecidableEq

/-- Base-class `PSO.init_pos`: `raise NotImplementedError()`. -/
def base_init_pos : Except PsoErr (List Vec) :=
  Except.error PsoErr.notImplemented

/-- Base-class `PSO.update_pos`: `raise NotImplementedError()`. -/
def base_update_pos (_a _va : Vec) : Except PsoErr Vec :=
  Except.error PsoErr.notImplemented

/-- `step` in the `Except` model: `update_pos` may raise (aborting before
the `evaluate` call); otherwise one `evaluate` call is counted. -/
def stepE (cost : Vec → ℚ) (upd : Vec → Vec → Except PsoErr Vec)
    (rng : ℕ → ℚ) (n : ℕ) (st : State) (cnt : ℕ) :
    Except PsoErr State × ℕ :=
  let a := st.pos.getD n []
  let va := st.vel.getD n []
  let p := st.p_best_pos.getD n []
  match upd a va with
  | Except.error e => (Except.error e, cnt)
  | Except.ok new_a =>
    let pos' := st.pos.set n new_a
    let g := st.p_best_pos.getD st.best_parti []
    let vk := update_vel rng st.k new_a va p g w_default p_default
    let vel' := st.vel.set n vk.1
    let score := cost new_a
    (Except.ok (if score < st.p_best_scores.getD n 0 then
      { pos := pos', vel := vel',
        p_best_pos := st.p_best_pos.set n new_a,
        p_best_scores := st.p_best_scores.set n score,
        best_parti := st.best_parti, k := vk.2 }
    else
      { pos := pos', vel := vel',
        p_best_pos := st.p_best_pos,
        p_best_scores := st.p_best_scores,
        best_parti := st.best_parti, k := vk.2 }), cnt + 1)

/-- Inner particle loop in the `Except` model: a raised exception aborts the
remaining particles. -/
def stateAfterE (cost : Vec → ℚ) (upd : Vec → Vec → Except PsoErr Vec)
    (rng : ℕ → ℚ) (m : ℕ) (st : State) (cnt : ℕ) :
    Except PsoErr State × ℕ :=
  (List.range m).foldl
    (fun acc n =>
      match acc.1 with
      | Except.error _ => acc
      | Except.ok s => stepE cost upd rng n s acc.2)
    (Except.ok st, cnt)

/-- One outer-loop iteration in the `Except` model. -/
def sweepE (cost : Vec → ℚ) (upd : Vec → Vec → Except PsoErr Vec)
    (rng : ℕ → ℚ) (N : ℕ) (st : State) (cnt : ℕ) :
    Except PsoErr State × ℕ :=
  match stateAfterE cost upd rng N st cnt with
  | (Except.error e, c) => (Except.error e, c)
  | (Except.ok s, c) =>
      (Except.ok { s with best_parti := argmin s.p_best_scores }, c)

/-- `t` outer-loop iterations in the `Except` model. -/
def sweepsE (cost : Vec → ℚ) (upd : Vec → Vec → Except PsoErr Vec)
    (rng : ℕ → ℚ) (N : ℕ) : ℕ → Except PsoErr State × ℕ →
    Except PsoErr State × ℕ
  | 0, acc => acc
  | t + 1, acc =>
    match sweepsE cost upd rng N t acc with
    | (Except.error e, c) => (Except.error e, c)
    | (Except.ok s, c) => sweepE cost upd rng N s c

/-- `PSO.compute` in the `Except` model: `pos = self.init_pos()` runs first
(line 62); if it raises, the run aborts with zero `evaluate` calls.
Otherwise initialization performs one `evaluate` call per particle
(`p_best_scores = [self.evaluate(p) for p in pos]`) and the loop runs as in
the pure model. -/
def computeE (initRes : Except PsoErr (List Vec))
    (upd : Vec → Vec → Except PsoErr Vec) (cost : Vec → ℚ)
    (rng : ℕ → ℚ) (D : ℕ) : Except PsoErr Vec × ℕ :=
  match initRes with
  | Except.error e => (Except.error e, 0)
  | Except.ok pos0 =>
    let st0 := initState cost pos0 parti_count D
    match sweepsE cost upd rng parti_count loop_count
        (Except.ok st0, pos0.length) with
    | (Except.error e, c) => (Except.error e, c)
    | (Except.ok s, c) => (Except.ok (s.p_best_pos.getD s.best_parti []), c)

/-! ### Observation of the global best actually read mid-sweep -/

/-- The vector that line 84's `self.update_vel(a, va, p, g_best_pos)` reads
as `g_best_pos` when the inner loop reaches particle `n`: `g_best_pos` is a
row view of `p_best_pos[best_parti]`, so its value at that moment is the
current contents of row `best_parti` after particles `0 .. n-1` have been
processed. -/
def gUsed (cost : Vec → ℚ) (upd : Vec → Vec → Vec) (rng : ℕ → ℚ)
    (n : ℕ) (st : State) : Vec :=
  let s := stateAfter cost upd rng n st
  s.p_best_pos.getD s.best_parti []

/-! ### Concrete fixtures used by counterexamples and witnesses -/

/-- Constant-zero cost function. -/
def cost0 : Vec → ℚ := fun _ => 0

/-- Cost function returning a vector's first coordinate. -/
def costFst : Vec → ℚ := fun v => v.getD 0 0

/-- Random stream that always yields `1/2`. -/
def rngHalf : ℕ → ℚ := fun _ => 1/2

/-- One particle in one dimension: position `0`, velocity `1`,
personal best `0` with score `0`. -/
def stA : State :=
  { pos := [[0]], vel := [[1]], p_best_pos := [[0]],
    p_best_scores := [0], best_parti := 0, k := 0 }

/-- Two particles in one dimension, particle 0 holding the global best and
about to improve it: positions `1, 1`, velocities `-3, 0`, personal bests
`1, 1` with scores `1, 1`. -/
def stB : State :=
  { pos := [[1], [1]], vel := [[-3], [0]], p_best_pos := [[1], [1]],
    p_best_scores := [1, 1], best_parti := 0, k := 0 }

/-! ## Helper lemmas -/


lemma argminAux_spec : ∀ (l : List ℚ) (bi i : ℕ) (bv : ℚ), bi < i →
    (argminAux l bi bv i = bi ∧ ∀ m, m < l.length → bv ≤ l.getD m 0) ∨
    (∃ j, j < l.length ∧ argminAux l bi bv i = i + j ∧
      l.getD j 0 < bv ∧
      (∀ m, m < l.length → l.getD j 0 ≤ l.getD m 0) ∧
      (∀ m, m < j → l.getD j 0 < l.getD m 0)) := by
  intro l
  induction l with
  | nil =>
    intro bi i bv _
    exact Or.inl ⟨rfl, fun m hm => by simp at hm⟩
  | cons x rest ih =>
    intro bi i bv hbi
    by_cases hx : x < bv
    · have hunf : argminAux (x :: rest) bi bv i = argminAux rest i x (i + 1) := by
        simp only [argminAux, if_pos hx]
      rcases ih i (i + 1) x (Nat.lt_succ_self i) with ⟨h1, h2⟩ | ⟨j, hj, heq, hlt, hle, hfirst⟩
      · refine Or.inr ⟨0, by simp, ?_, ?_, ?_, ?_⟩
        · rw [hunf, h1]; omega
        · simpa using hx
        · intro m hm
          cases m with
          | zero => simp
          | succ m' =>
            simp only [List.getD_cons_zero, List.getD_cons_succ]
            exact h2 m' (by simpa using hm)
        · intro m hm; omega
      · refine Or.inr ⟨j + 1, by simpa using hj, ?_, ?_, ?_, ?_⟩
        · rw [hunf, heq]; omega
        · simp only [List.getD_cons_succ]
          exact lt_trans hlt hx
        · intro m hm
          cases m with
          | zero =>
            simp only [List.getD_cons_zero, List.getD_cons_succ]
            exact le_of_lt hlt
          | succ m' =>
            simp only [List.getD_cons_succ]
            exact hle m' (by simpa using hm)
        · intro m hm
          cases m with
          | zero =>
            simp only [List.getD_cons_zero, List.getD_cons_succ]
            exact hlt
          | succ m' =>
            simp only [List.getD_cons_succ]
            exact hfirst m' (by omega)
    · have hunf : argminAux (x :: rest) bi bv i = argminAux rest bi bv (i + 1) := by
        simp only [argminAux, if_neg hx]
      push_neg at hx
      rcases ih bi (i + 1) bv (by omega) with ⟨h1, h2⟩ | ⟨j, hj, heq, hlt, hle, hfirst⟩
      · refine Or.inl ⟨by rw [hunf, h1], ?_⟩
        intro m hm
        cases m with
        | zero => simpa using hx
        | succ m' =>
          simp only [List.getD_cons_succ]
          exact h2 m' (by simpa using hm)
      · refine Or.inr ⟨j + 1, by simpa using hj, ?_, ?_, ?_, ?_⟩
        · rw [hunf, heq]; omega
        · simpa using hlt
        · intro m hm
          cases m with
          | zero =>
            simp only [List.getD_cons_zero, List.getD_cons_succ]
            exact le_of_lt (lt_of_lt_of_le hlt hx)
          | succ m' =>
            simp only [List.getD_cons_succ]
            exact hle m' (by simpa using hm)
        · intro m hm
          cases m with
          | zero =>
            simp only [List.getD_cons_zero, List.getD_cons_succ]
            exact lt_of_lt_of_le hlt hx
          | succ m' =>
            simp only [List.getD_cons_succ]
            exact hfirst m' (by omega)

lemma argmin_spec (l : List ℚ) (h : l ≠ []) :
    argmin l < l.length ∧
    (∀ m, m < l.length → l.getD (argmin l) 0 ≤ l.getD m 0) ∧
    (∀ m, m < argmin l → l.getD (argmin l) 0 < l.getD m 0) := by
  cases l with
  | nil => exact absurd rfl h
  | cons x rest =>
    have hunf : argmin (x :: rest) = argminAux rest 0 x 1 := rfl
    rcases argminAux_spec rest 0 1 x (by omega) with ⟨h1, h2⟩ | ⟨j, hj, heq, hlt, hle, hfirst⟩
    · rw [hunf, h1]
      refine ⟨by simp, ?_, ?_⟩
      · intro m hm
        cases m with
        | zero => simp
        | succ m' =>
          simp only [List.getD_cons_zero, List.getD_cons_succ]
          exact h2 m' (by simpa using hm)
      · intro m hm; omega
    · have heq' : argmin (x :: rest) = j + 1 := by rw [hunf, heq]; omega
      rw [heq']
      refine ⟨by simp; omega, ?_, ?_⟩
      · intro m hm
        cases m with
        | zero =>
          simp only [List.getD_cons_zero, List.getD_cons_succ]
          exact le_of_lt hlt
        | succ m' =>
          simp only [List.getD_cons_succ]
          exact hle m' (by simpa using hm)
      · intro m hm
        cases m with
        | zero =>
          simp only [List.getD_cons_zero, List.getD_cons_succ]
          exact hlt
        | succ m' =>
          simp only [List.getD_cons_succ]
          exact hfirst m' (by omega)

lemma getD_set_self {α : Type _} (l : List α) (n : ℕ) (a d : α)
    (h : n < l.length) : (l.set n a).getD n d = a := by
  rw [List.getD_eq_getElem _ _ (by simpa using h)]
  simp [List.getElem_set]

lemma getD_set_ne {α : Type _} (l : List α) (n m : ℕ) (a d : α)
    (h : n ≠ m) : (l.set n a).getD m d = l.getD m d := by
  rcases Nat.lt_or_ge m l.length with hm | hm
  · rw [List.getD_eq_getElem _ _ (by simpa using hm),
      List.getD_eq_getElem _ _ hm]
    simp [List.getElem_set, h]
  · rw [List.getD_eq_default _ _ (by simpa using hm),
      List.getD_eq_default _ _ hm]

lemma getD_zipWith' {α β γ : Type _} (f : α → β → γ) (x : List α)
    (y : List β) (i : ℕ) (hx : i < x.length) (hy : i < y.length)
    (da : α) (db : β) (dc : γ) :
    (List.zipWith f x y).getD i dc = f (x.getD i da) (y.getD i db) := by
  rw [List.getD_eq_getElem _ _ (by simp [List.length_zipWith]; omega),
    List.getD_eq_getElem _ _ hx, List.getD_eq_getElem _ _ hy]
  simp [List.getElem_zipWith]

lemma getD_map_lt {α β : Type _} (f : α → β) (l : List α) (i : ℕ)
    (h : i < l.length) (da : α) (db : β) :
    (l.map f).getD i db = f (l.getD i da) := by
  rw [List.getD_eq_getElem _ _ (by simpa using h), List.getD_eq_getElem _ _ h]
  simp

lemma getD_mapIdx {α : Type _} (f : ℕ → α → α) (l : List α) (i : ℕ)
    (h : i < l.length) (d : α) :
    (l.mapIdx f).getD i d = f i (l.getD i d) := by
  rw [List.getD_eq_getElem _ _ (by simpa [List.length_mapIdx] using h),
    List.getD_eq_getElem _ _ h]
  simp [List.getElem_mapIdx]

lemma map_set {α β : Type _} (f : α → β) (l : List α) (n : ℕ) (a : α) :
    (l.set n a).map f = (l.map f).set n (f a) := by
  induction l generalizing n with
  | nil => simp
  | cons x xs ih =>
    cases n with
    | zero => simp
    | succ m => simp [ih]

/-! ### Field bookkeeping for `step`, `stateAfter`, `sweep`, `sweeps` -/

lemma step_pos (cost : Vec → ℚ) (upd : Vec → Vec → Vec) (rng : ℕ → ℚ)
    (n : ℕ) (st : State) :
    (step cost upd rng n st).pos
      = st.pos.set n (upd (st.pos.getD n []) (st.vel.getD n [])) := by
  simp only [step]; split <;> rfl

lemma step_vel (cost : Vec → ℚ) (upd : Vec → Vec → Vec) (rng : ℕ → ℚ)
    (n : ℕ) (st : State) :
    (step cost upd rng n st).vel
      = st.vel.set n (update_vel rng st.k
          (upd (st.pos.getD n []) (st.vel.getD n [])) (st.vel.getD n [])
          (st.p_best_pos.getD n []) (st.p_best_pos.getD st.best_parti [])
          w_default p_default).1 := by
  simp only [step]; split <;> rfl

lemma step_k (cost : Vec → ℚ) (upd : Vec → Vec → Vec) (rng : ℕ → ℚ)
    (n : ℕ) (st : State) :
    (step cost upd rng n st).k = st.k + 2 := by
  simp only [step, update_vel]; split <;> rfl

lemma step_best_parti (cost : Vec → ℚ) (upd : Vec → Vec → Vec) (rng : ℕ → ℚ)
    (n : ℕ) (st : State) :
    (step cost upd rng n st).best_parti = st.best_parti := by
  simp only [step]; split <;> rfl

lemma step_scores_length (cost : Vec → ℚ) (upd : Vec → Vec → Vec)
    (rng : ℕ → ℚ) (n : ℕ) (st : State) :
    (step cost upd rng n st).p_best_scores.length
      = st.p_best_scores.length := by
  simp only [step]; split <;> simp

lemma step_pbp_length (cost : Vec → ℚ) (upd : Vec → Vec → Vec)
    (rng : ℕ → ℚ) (n : ℕ) (st : State) :
    (step cost upd rng n st).p_best_pos.length
      = st.p_best_pos.length := by
  simp only [step]; split <;> simp

lemma stateAfter_zero (cost : Vec → ℚ) (upd : Vec → Vec → Vec)
    (rng : ℕ → ℚ) (st : State) :
    stateAfter cost upd rng 0 st = st := rfl

lemma stateAfter_succ (cost : Vec → ℚ) (upd : Vec → Vec → Vec)
    (rng : ℕ → ℚ) (m : ℕ) (st : State) :
    stateAfter cost upd rng (m + 1) st
      = step cost upd rng m (stateAfter cost upd rng m st) := by
  simp [stateAfter, List.range_succ]

lemma stateAfter_best_parti (cost : Vec → ℚ) (upd : Vec → Vec → Vec)
    (rng : ℕ → ℚ) (m : ℕ) (st : State) :
    (stateAfter cost upd rng m st).best_parti = st.best_parti := by
  induction m with
  | zero => rfl
  | succ m' ih => rw [stateAfter_succ, step_best_parti, ih]

lemma stateAfter_scores_length (cost : Vec → ℚ) (upd : Vec → Vec → Vec)
    (rng : ℕ → ℚ) (m : ℕ) (st : State) :
    (stateAfter cost upd rng m st).p_best_scores.length
      = st.p_best_scores.length := by
  induction m with
  | zero => rfl
  | succ m' ih => rw [stateAfter_succ, step_scores_length, ih]

lemma sweep_scores (cost : Vec → ℚ) (upd : Vec → Vec → Vec)
    (rng : ℕ → ℚ) (N : ℕ) (st : State) :
    (sweep cost upd rng N st).p_best_scores
      = (stateAfter cost upd rng N st).p_best_scores := rfl

lemma sweep_pbp (cost : Vec → ℚ) (upd : Vec → Vec → Vec)
    (rng : ℕ → ℚ) (N : ℕ) (st : State) :
    (sweep cost upd rng N st).p_best_pos
      = (stateAfter cost upd rng N st).p_best_pos := rfl

lemma sweep_best_parti (cost : Vec → ℚ) (upd : Vec → Vec → Vec)
    (rng : ℕ → ℚ) (N : ℕ) (st : State) :
    (sweep cost upd rng N st).best_parti
      = argmin (stateAfter cost upd rng N st).p_best_scores := rfl

lemma sweep_scores_length (cost : Vec → ℚ) (upd : Vec → Vec → Vec)
    (rng : ℕ → ℚ) (N : ℕ) (st : State) :
    (sweep cost upd rng N st).p_best_scores.length
      = st.p_best_scores.length := by
  rw [sweep_scores, stateAfter_scores_length]

/-! ### Personal-best scores only ever decrease -/

lemma step_scores_getD_le (cost : Vec → ℚ) (upd : Vec → Vec → Vec)
    (rng : ℕ → ℚ) (n : ℕ) (st : State) (m : ℕ) :
    (step cost upd rng n st).p_best_scores.getD m 0
      ≤ st.p_best_scores.getD m 0 := by
  simp only [step]
  split
  all_goals dsimp only
  · rename_i hscore
    by_cases hnm : n = m
    · subst hnm
      by_cases hn : n < st.p_best_scores.length
      · rw [getD_set_self _ _ _ _ hn]
        exact le_of_lt hscore
      · rw [List.getD_eq_default _ _ (by simpa using Nat.le_of_not_lt hn),
          List.getD_eq_default _ _ (Nat.le_of_not_lt hn)]
    · rw [getD_set_ne _ _ _ _ _ hnm]
  · exact le_refl _

lemma stateAfter_scores_getD_le (cost : Vec → ℚ) (upd : Vec → Vec → Vec)
    (rng : ℕ → ℚ) (N : ℕ) (st : State) (m : ℕ) :
    (stateAfter cost upd rng N st).p_best_scores.getD m 0
      ≤ st.p_best_scores.getD m 0 := by
  induction N with
  | zero => exact le_refl _
  | succ N' ih =>
    rw [stateAfter_succ]
    exact le_trans (step_scores_getD_le cost upd rng N' _ m) ih

lemma sweep_scores_getD_le (cost : Vec → ℚ) (upd : Vec → Vec → Vec)
    (rng : ℕ → ℚ) (N : ℕ) (st : State) (m : ℕ) :
    (sweep cost upd rng N st).p_best_scores.getD m 0
      ≤ st.p_best_scores.getD m 0 := by
  rw [sweep_scores]
  exact stateAfter_scores_getD_le cost upd rng N st m

/-! ### The personal-best pair invariant -/

/-- Every particle's stored personal-best score is the cost of its stored
personal-best position. -/
def Inv (cost : Vec → ℚ) (st : State) : Prop :=
  st.p_best_scores = st.p_best_pos.map cost

lemma inv_step (cost : Vec → ℚ) (upd : Vec → Vec → Vec) (rng : ℕ → ℚ)
    (n : ℕ) (st : State) (h : Inv cost st) :
    Inv cost (step cost upd rng n st) := by
  unfold Inv at h ⊢
  simp only [step]
  split
  · simp only [h, map_set]
  · exact h

lemma inv_stateAfter (cost : Vec → ℚ) (upd : Vec → Vec → Vec)
    (rng : ℕ → ℚ) (m : ℕ) (st : State) (h : Inv cost st) :
    Inv cost (stateAfter cost upd rng m st) := by
  induction m with
  | zero => exact h
  | succ m' ih => rw [stateAfter_succ]; exact inv_step cost upd rng m' _ ih

lemma inv_sweep (cost : Vec → ℚ) (upd : Vec → Vec → Vec) (rng : ℕ → ℚ)
    (N : ℕ) (st : State) (h : Inv cost st) :
    Inv cost (sweep cost upd rng N st) :=
  inv_stateAfter cost upd rng N st h

lemma inv_sweeps (cost : Vec → ℚ) (upd : Vec → Vec → Vec) (rng : ℕ → ℚ)
    (N t : ℕ) (st : State) (h : Inv cost st) :
    Inv cost (sweeps cost upd rng N t st) := by
  induction t with
  | zero => exact h
  | succ t' ih => exact inv_sweep cost upd rng N _ ih

lemma inv_initState (cost : Vec → ℚ) (pos0 : List Vec) (N D : ℕ) :
    Inv cost (initState cost pos0 N D) := rfl

/-! ### Clamp output bounds -/


lemma clamp_hl (hi lo z : ℚ) (h : lo ≤ hi) :
    lo ≤ (if z > hi then hi else if z < lo then lo else z) ∧
    (if z > hi then hi else if z < lo then lo else z) ≤ hi := by
  split_ifs with h1 h2
  · exact ⟨h, le_refl hi⟩
  · exact ⟨le_refl lo, h⟩
  · push_neg at h1 h2
    exact ⟨h2, h1⟩

lemma power_update_pos_bounds (a va : Vec) :
    ∀ x ∈ PSO_POWER.update_pos a va, (-2 : ℚ) ≤ x ∧ x ≤ 2 := by
  intro x hx
  simp only [PSO_POWER.update_pos, List.mem_map] at hx
  obtain ⟨y, ⟨z, _, rfl⟩, rfl⟩ := hx
  by_cases h1 : z < PSO_POWER.a_min
  · simp only [if_pos h1]
    norm_num [PSO_POWER.a_min, PSO_POWER.a_max]
  · simp only [if_neg h1]
    push_neg at h1
    by_cases h2 : z > PSO_POWER.a_max
    · simp only [if_pos h2]
      norm_num [PSO_POWER.a_max]
    · simp only [if_neg h2]
      push_neg at h2
      exact ⟨by simpa [PSO_POWER.a_min] using h1,
        by simpa [PSO_POWER.a_max] using h2⟩

lemma gauss4_update_pos_bounds (a va : Vec)
    (ha : a.length = 4) (hva : va.length = 4) :
    (∀ i, i < 2 →
      -(2:ℚ)/10 ≤ (PSO_GAUSS4.update_pos a va).getD i 0 ∧
        (PSO_GAUSS4.update_pos a va).getD i 0 ≤ 2/10) ∧
    (∀ i, 2 ≤ i → i < 4 →
      (0:ℚ) ≤ (PSO_GAUSS4.update_pos a va).getD i 0 ∧
        (PSO_GAUSS4.update_pos a va).getD i 0 ≤ 1) := by
  have hlen : (vadd a va).length = 4 := by simp [vadd, ha, hva]
  constructor
  · intro i hi
    simp only [PSO_GAUSS4.update_pos]
    rw [getD_mapIdx _ _ _ (by omega) 0, hlen]
    rw [if_pos (by omega : i < 4 / 2)]
    exact clamp_hl _ _ _ (by norm_num)
  · intro i hi2 hi4
    simp only [PSO_GAUSS4.update_pos]
    rw [getD_mapIdx _ _ _ (by omega) 0, hlen]
    rw [if_neg (by omega : ¬ i < 4 / 2)]
    exact clamp_hl _ _ _ (by norm_num)

lemma gauss6_update_pos_bounds (a va : Vec)
    (ha : a.length = 6) (hva : va.length = 6) :
    (∀ i, i < 2 →
      -(2:ℚ)/10 ≤ (PSO_GAUSS6.update_pos a va).getD i 0 ∧
        (PSO_GAUSS6.update_pos a va).getD i 0 ≤ 2/10) ∧
    (∀ i, 2 ≤ i → i < 4 →
      (0:ℚ) ≤ (PSO_GAUSS6.update_pos a va).getD i 0 ∧
        (PSO_GAUSS6.update_pos a va).getD i 0 ≤ 1) ∧
    ((-2:ℚ) ≤ (PSO_GAUSS6.update_pos a va).getD 4 0 ∧
      (PSO_GAUSS6.update_pos a va).getD 4 0 ≤ -1/2) ∧
    ((1:ℚ)/2 ≤ (PSO_GAUSS6.update_pos a va).getD 5 0 ∧
      (PSO_GAUSS6.update_pos a va).getD 5 0 ≤ 2) := by
  have hlen : (vadd a va).length = 6 := by simp [vadd, ha, hva]
  refine ⟨?_, ?_, ?_, ?_⟩
  · intro i hi
    simp only [PSO_GAUSS6.update_pos]
    rw [getD_mapIdx _ _ _ (by omega) 0]
    rw [if_pos hi]
    exact clamp_hl _ _ _ (by norm_num)
  · intro i hi2 hi4
    simp only [PSO_GAUSS6.update_pos]
    rw [getD_mapIdx _ _ _ (by omega) 0]
    rw [if_neg (by omega : ¬ i < 2), if_pos hi4]
    exact clamp_hl _ _ _ (by norm_num)
  · simp only [PSO_GAUSS6.update_pos]
    rw [getD_mapIdx _ _ _ (by omega) 0]
    rw [if_neg (by omega : ¬ (4:ℕ) < 2), if_neg (by omega : ¬ (4:ℕ) < 4),
      if_pos rfl]
    exact clamp_hl (-1/2) (-2) _ (by norm_num)
  · simp only [PSO_GAUSS6.update_pos]
    rw [getD_mapIdx _ _ _ (by omega) 0]
    rw [if_neg (by omega : ¬ (5:ℕ) < 2), if_neg (by omega : ¬ (5:ℕ) < 4),
      if_neg (by omega : (5:ℕ) ≠ 4), if_pos rfl]
    exact clamp_hl 2 (1/2) _ (by norm_num)


/-! ## Claim theorems -/


lemma sweeps_scores_length (cost : Vec → ℚ) (upd : Vec → Vec → Vec)
    (rng : ℕ → ℚ) (N t : ℕ) (st : State) :
    (sweeps cost upd rng N t st).p_best_scores.length
      = st.p_best_scores.length := by
  induction t with
  | zero => rfl
  | succ t' ih => rw [sweeps, sweep_scores_length, ih]

lemma update_vel_getD (rng : ℕ → ℚ) (k : ℕ) (a va p g : Vec) (w c : ℚ)
    (i : ℕ) (ha : i < a.length) (hva : i < va.length) (hp : i < p.length)
    (hg : i < g.length) :
    ((update_vel rng k a va p g w c).1).getD i 0
      = w * (va.getD i 0 + c * rng k * (p.getD i 0 - a.getD i 0)
          + c * rng (k + 1) * (g.getD i 0 - a.getD i 0)) := by
  simp only [update_vel, smul, vadd, vsub]
  rw [getD_map_lt _ _ _ (by simp [List.length_zipWith]; omega) 0 0]
  rw [getD_zipWith' _ _ _ _ hva (by simp [List.length_zipWith]; omega) 0 0 0]
  rw [getD_zipWith' _ _ _ _ (by simp [List.length_zipWith]; omega)
    (by simp [List.length_zipWith]; omega) 0 0 0]
  rw [getD_map_lt _ _ _ (by simp [List.length_zipWith]; omega) 0 0]
  rw [getD_map_lt _ _ _ (by simp [List.length_zipWith]; omega) 0 0]
  rw [getD_zipWith' _ _ _ _ hp ha 0 0 0]
  rw [getD_zipWith' _ _ _ _ hg ha 0 0 0]
  ring



/-- Claim C1 (as stated, refuted): in the per-particle update, the stored
new position is NOT `clamp(a + new_v)` for the newly computed velocity
`new_v`: in the concrete one-particle state `stA` the engine stores
position `[1]` while clamping `a + new_v` would give a different vector,
because the position update runs before the velocity update and uses the
previous velocity. -/
theorem c1_counterexample :
    (step cost0 PSO_POWER.update_pos rngHalf 0 stA).pos.getD 0 []
      ≠ PSO_POWER.update_pos (stA.pos.getD 0 [])
          ((step cost0 PSO_POWER.update_pos rngHalf 0 stA).vel.getD 0 []) := by
  simp [step, update_vel, stA, cost0, rngHalf, PSO_POWER.update_pos,
    vadd, vsub, smul, w_default, p_default, PSO_POWER.a_min, PSO_POWER.a_max]
  norm_num

/-- Claim C1, amended: in each per-iteration particle update the new
position is obtained from the particle's PREVIOUS velocity — the engine
computes and stores `new_a = clamp(a + va)` first, and only then computes
the new velocity, which is stored for use in the next iteration. -/
theorem c1_position_from_previous_velocity :
    ∀ (cost : Vec → ℚ) (upd : Vec → Vec → Vec) (rng : ℕ → ℚ)
      (n : ℕ) (st : State), n < st.pos.length → n < st.vel.length →
    (step cost upd rng n st).pos.getD n []
        = upd (st.pos.getD n []) (st.vel.getD n []) ∧
    (step cost upd rng n st).vel.getD n []
        = (update_vel rng st.k (upd (st.pos.getD n []) (st.vel.getD n []))
            (st.vel.getD n []) (st.p_best_pos.getD n [])
            (st.p_best_pos.getD st.best_parti []) w_default p_default).1 := by
  intro cost upd rng n st hpos hvel
  constructor
  · rw [step_pos]
    exact getD_set_self _ _ _ _ hpos
  · rw [step_vel]
    exact getD_set_self _ _ _ _ hvel

/-- Witness for `c1_position_from_previous_velocity` at the concrete state
`stA`. -/
theorem c1_position_from_previous_velocity_witness :
    0 < stA.pos.length ∧ 0 < stA.vel.length ∧
    ((step cost0 PSO_POWER.update_pos rngHalf 0 stA).pos.getD 0 []
        = PSO_POWER.update_pos (stA.pos.getD 0 []) (stA.vel.getD 0 []) ∧
     (step cost0 PSO_POWER.update_pos rngHalf 0 stA).vel.getD 0 []
        = (update_vel rngHalf stA.k
            (PSO_POWER.update_pos (stA.pos.getD 0 []) (stA.vel.getD 0 []))
            (stA.vel.getD 0 []) (stA.p_best_pos.getD 0 [])
            (stA.p_best_pos.getD stA.best_parti [])
            w_default p_default).1) :=
  ⟨by decide, by decide,
    c1_position_from_previous_velocity cost0 PSO_POWER.update_pos rngHalf 0
      stA (by decide) (by decide)⟩

/-- Claim C2 (as stated, refuted): in the two-particle state `stB`,
particle 0 holds the global best and improves its personal best when the
sweep processes it; the `g_best_pos` row view then makes particle 1's
velocity update read the NEW value, not the value fixed at the end of the
previous iteration. -/
theorem c2_counterexample :
    gUsed costFst PSO_POWER.update_pos rngHalf 1 stB
      ≠ stB.p_best_pos.getD stB.best_parti [] := by
  unfold gUsed
  rw [stateAfter_succ, stateAfter_zero]
  simp [step, update_vel, stB, costFst, rngHalf,
    PSO_POWER.update_pos, vadd, vsub, smul, w_default, p_default,
    PSO_POWER.a_min, PSO_POWER.a_max]
  norm_num

/-- Claim C2, amended: during one sweep every particle's velocity update
reads the global best through the same fixed particle index `best_parti`
(the argmin recomputed at the end of the previous iteration — mid-sweep
personal-best updates never change the index), but the VALUE read is the
current contents of `p_best_pos[best_parti]`, so a mid-sweep personal-best
improvement by that particle changes the `g` seen by later particles of
the same sweep. -/
theorem c2_g_read_through_fixed_index :
    ∀ (cost : Vec → ℚ) (upd : Vec → Vec → Vec) (rng : ℕ → ℚ) (st : State),
    (∀ m, (stateAfter cost upd rng m st).best_parti = st.best_parti) ∧
    (∀ n, gUsed cost upd rng n st
        = (stateAfter cost upd rng n st).p_best_pos.getD st.best_parti []) := by
  intro cost upd rng st
  refine ⟨fun m => stateAfter_best_parti cost upd rng m st, fun n => ?_⟩
  simp only [gUsed]
  rw [stateAfter_best_parti]

/-- Claim C3 (as stated, refuted): the stored new velocity is NOT the
update formula evaluated at the particle's pre-update position `a`: in the
concrete state `stA` it differs from `update_vel` applied to the pre-update
position, because `pos[n] = new_a` executes before `update_vel(a, ...)` and
`a` is a row view of `pos[n]`. -/
theorem c3_counterexample :
    (step cost0 PSO_POWER.update_pos rngHalf 0 stA).vel.getD 0 []
      ≠ (update_vel rngHalf stA.k (stA.pos.getD 0 []) (stA.vel.getD 0 [])
          (stA.p_best_pos.getD 0 []) (stA.p_best_pos.getD stA.best_parti [])
          w_default p_default).1 := by
  simp [step, update_vel, stA, cost0, rngHalf, PSO_POWER.update_pos,
    vadd, vsub, smul, w_default, p_default, PSO_POWER.a_min, PSO_POWER.a_max]
  norm_num

/-- Claim C3, amended: each particle's velocity update draws exactly two
fresh uniform scalars (the stream cursor advances by exactly 2 per particle
per iteration), the same pair `r1 = rng k`, `r2 = rng (k+1)` is shared
across all coordinates, the defaults `w_ = 0.730` and `p_ = 2.05` are used,
and the formula is evaluated at the particle's ALREADY-UPDATED (clamped
new) position `upd a va`, not at its pre-update position. -/
theorem c3_velocity_formula_at_updated_position :
    ∀ (cost : Vec → ℚ) (upd : Vec → Vec → Vec) (rng : ℕ → ℚ)
      (n : ℕ) (st : State), n < st.vel.length →
    ((step cost upd rng n st).k = st.k + 2) ∧
    (∀ i, i < (upd (st.pos.getD n []) (st.vel.getD n [])).length →
      i < (st.vel.getD n []).length →
      i < (st.p_best_pos.getD n []).length →
      i < (st.p_best_pos.getD st.best_parti []).length →
      ((step cost upd rng n st).vel.getD n []).getD i 0
        = (730/1000)
            * ((st.vel.getD n []).getD i 0
              + (205/100) * rng st.k
                * ((st.p_best_pos.getD n []).getD i 0
                  - (upd (st.pos.getD n []) (st.vel.getD n [])).getD i 0)
              + (205/100) * rng (st.k + 1)
                * ((st.p_best_pos.getD st.best_parti []).getD i 0
                  - (upd (st.pos.getD n []) (st.vel.getD n [])).getD i 0))) := by
  intro cost upd rng n st hvel
  refine ⟨step_k cost upd rng n st, fun i hia hiva hip hig => ?_⟩
  rw [step_vel, getD_set_self _ _ _ _ hvel,
    update_vel_getD rng st.k _ _ _ _ _ _ i hia hiva hip hig]
  simp only [w_default, p_default]

/-- Witness for `c3_velocity_formula_at_updated_position` at the concrete
state `stA`, coordinate 0. -/
theorem c3_velocity_formula_witness :
    0 < stA.vel.length ∧
    0 < (PSO_POWER.update_pos (stA.pos.getD 0 []) (stA.vel.getD 0 [])).length ∧
    (step cost0 PSO_POWER.update_pos rngHalf 0 stA).k = stA.k + 2 ∧
    ((step cost0 PSO_POWER.update_pos rngHalf 0 stA).vel.getD 0 []).getD 0 0
      = (730/1000)
          * ((stA.vel.getD 0 []).getD 0 0
            + (205/100) * rngHalf stA.k
              * ((stA.p_best_pos.getD 0 []).getD 0 0
                - (PSO_POWER.update_pos (stA.pos.getD 0 [])
                    (stA.vel.getD 0 [])).getD 0 0)
            + (205/100) * rngHalf (stA.k + 1)
              * ((stA.p_best_pos.getD stA.best_parti []).getD 0 0
                - (PSO_POWER.update_pos (stA.pos.getD 0 [])
                    (stA.vel.getD 0 [])).getD 0 0)) := by
  have hlen : 0 < (PSO_POWER.update_pos (stA.pos.getD 0 [])
      (stA.vel.getD 0 [])).length := by
    simp [PSO_POWER.update_pos, vadd, stA]
  have h := c3_velocity_formula_at_updated_position cost0 PSO_POWER.update_pos
    rngHalf 0 stA (by decide)
  exact ⟨by decide, hlen, h.1, h.2 0 hlen (by decide) (by decide) (by decide)⟩




/-- Claim C4: every coordinate produced by a strategy's clamp rule lies
within that strategy's bounds — Bounded-Box (`PSO_POWER`): `[-2, 2]` for
all coordinates; Four-Parameter (`PSO_GAUSS4`, vectors of length 4):
coordinates 0-1 in `[-0.2, 0.2]`, 2-3 in `[0, 1]`; Six-Parameter
(`PSO_GAUSS6`, vectors of length 6): additionally coordinate 4 in
`[-2, -0.5]` and coordinate 5 in `[0.5, 2]`.  Since every stored position
after initialization is a clamp output, the bounds invariant holds at all
times after initialization. -/
theorem c4_bounds_invariant :
    (∀ a va : Vec, ∀ x ∈ PSO_POWER.update_pos a va, (-2:ℚ) ≤ x ∧ x ≤ 2) ∧
    (∀ a va : Vec, a.length = 4 → va.length = 4 →
      (∀ i, i < 2 →
        -(2:ℚ)/10 ≤ (PSO_GAUSS4.update_pos a va).getD i 0 ∧
          (PSO_GAUSS4.update_pos a va).getD i 0 ≤ 2/10) ∧
      (∀ i, 2 ≤ i → i < 4 →
        (0:ℚ) ≤ (PSO_GAUSS4.update_pos a va).getD i 0 ∧
          (PSO_GAUSS4.update_pos a va).getD i 0 ≤ 1)) ∧
    (∀ a va : Vec, a.length = 6 → va.length = 6 →
      (∀ i, i < 2 →
        -(2:ℚ)/10 ≤ (PSO_GAUSS6.update_pos a va).getD i 0 ∧
          (PSO_GAUSS6.update_pos a va).getD i 0 ≤ 2/10) ∧
      (∀ i, 2 ≤ i → i < 4 →
        (0:ℚ) ≤ (PSO_GAUSS6.update_pos a va).getD i 0 ∧
          (PSO_GAUSS6.update_pos a va).getD i 0 ≤ 1) ∧
      ((-2:ℚ) ≤ (PSO_GAUSS6.update_pos a va).getD 4 0 ∧
        (PSO_GAUSS6.update_pos a va).getD 4 0 ≤ -1/2) ∧
      ((1:ℚ)/2 ≤ (PSO_GAUSS6.update_pos a va).getD 5 0 ∧
        (PSO_GAUSS6.update_pos a va).getD 5 0 ≤ 2)) :=
  ⟨power_update_pos_bounds, gauss4_update_pos_bounds,
    gauss6_update_pos_bounds⟩

/-- Witness for `c4_bounds_invariant` on concrete vectors. -/
theorem c4_bounds_invariant_witness :
    ((2:ℚ) ∈ PSO_POWER.update_pos [3] [0] ∧ ((-2:ℚ) ≤ 2 ∧ (2:ℚ) ≤ 2)) ∧
    (([(0:ℚ), 0, 0, 0] : Vec).length = 4 ∧
      (-(2:ℚ)/10 ≤ (PSO_GAUSS4.update_pos [0, 0, 0, 0] [5, 5, 5, 5]).getD 0 0 ∧
        (PSO_GAUSS4.update_pos [0, 0, 0, 0] [5, 5, 5, 5]).getD 0 0 ≤ 2/10)) ∧
    (([(0:ℚ), 0, 0, 0, 0, 0] : Vec).length = 6 ∧
      ((-2:ℚ) ≤ (PSO_GAUSS6.update_pos [0, 0, 0, 0, 0, 0]
          [0, 0, 0, 0, -9, 9]).getD 4 0 ∧
        (PSO_GAUSS6.update_pos [0, 0, 0, 0, 0, 0]
          [0, 0, 0, 0, -9, 9]).getD 4 0 ≤ -1/2)) := by
  have hmem : (2:ℚ) ∈ PSO_POWER.update_pos [3] [0] := by
    norm_num [PSO_POWER.update_pos, vadd, PSO_POWER.a_min, PSO_POWER.a_max]
  refine ⟨⟨hmem, c4_bounds_invariant.1 [3] [0] 2 hmem⟩,
    ⟨by decide, (c4_bounds_invariant.2.1 [0, 0, 0, 0] [5, 5, 5, 5]
      (by decide) (by decide)).1 0 (by decide)⟩,
    ⟨by decide, (c4_bounds_invariant.2.2 [0, 0, 0, 0, 0, 0] [0, 0, 0, 0, -9, 9]
      (by decide) (by decide)).2.2.1⟩⟩

/-- Claim C5: at initialization and after every sweep, each particle's
stored personal-best score is `cost` of its stored personal-best position
(the pair moves atomically), and within a particle's step the pair is
replaced exactly when the new score strictly improves on the stored one —
on ties (or worse) both components are unchanged, preserving the
earlier-found best. -/
theorem c5_personal_best_invariant :
    (∀ (cost : Vec → ℚ) (upd : Vec → Vec → Vec) (rng : ℕ → ℚ)
       (pos0 : List Vec) (N D t : ℕ),
      (sweeps cost upd rng N t (initState cost pos0 N D)).p_best_scores
        = (sweeps cost upd rng N t
            (initState cost pos0 N D)).p_best_pos.map cost) ∧
    (∀ (cost : Vec → ℚ) (upd : Vec → Vec → Vec) (rng : ℕ → ℚ)
       (n : ℕ) (st : State),
      n < st.p_best_pos.length → n < st.p_best_scores.length →
      (cost (upd (st.pos.getD n []) (st.vel.getD n []))
          < st.p_best_scores.getD n 0 →
        (step cost upd rng n st).p_best_pos.getD n []
            = upd (st.pos.getD n []) (st.vel.getD n []) ∧
        (step cost upd rng n st).p_best_scores.getD n 0
            = cost (upd (st.pos.getD n []) (st.vel.getD n []))) ∧
      (st.p_best_scores.getD n 0
          ≤ cost (upd (st.pos.getD n []) (st.vel.getD n [])) →
        (step cost upd rng n st).p_best_pos.getD n []
            = st.p_best_pos.getD n [] ∧
        (step cost upd rng n st).p_best_scores.getD n 0
            = st.p_best_scores.getD n 0)) := by
  constructor
  · intro cost upd rng pos0 N D t
    exact inv_sweeps cost upd rng N t _ (inv_initState cost pos0 N D)
  · intro cost upd rng n st hp hs
    constructor
    · intro himpr
      simp only [step]
      rw [if_pos himpr]
      exact ⟨getD_set_self _ _ _ _ hp, getD_set_self _ _ _ _ hs⟩
    · intro hworse
      simp only [step]
      rw [if_neg (not_lt.mpr hworse)]
      exact ⟨rfl, rfl⟩

/-- Witness for `c5_personal_best_invariant` at the concrete state `stB`
(particle 0 strictly improves) and `stA` (no improvement on a tie). -/
theorem c5_personal_best_invariant_witness :
    (0 < stB.p_best_pos.length ∧ 0 < stB.p_best_scores.length ∧
      costFst (PSO_POWER.update_pos (stB.pos.getD 0 []) (stB.vel.getD 0 []))
        < stB.p_best_scores.getD 0 0 ∧
      (step costFst PSO_POWER.update_pos rngHalf 0 stB).p_best_pos.getD 0 []
        = PSO_POWER.update_pos (stB.pos.getD 0 []) (stB.vel.getD 0 []) ∧
      (step costFst PSO_POWER.update_pos rngHalf 0 stB).p_best_scores.getD 0 0
        = costFst (PSO_POWER.update_pos (stB.pos.getD 0 [])
            (stB.vel.getD 0 []))) ∧
    (stA.p_best_scores.getD 0 0
        ≤ cost0 (PSO_POWER.update_pos (stA.pos.getD 0 []) (stA.vel.getD 0 [])) ∧
      (step cost0 PSO_POWER.update_pos rngHalf 0 stA).p_best_pos.getD 0 []
        = stA.p_best_pos.getD 0 [] ∧
      (step cost0 PSO_POWER.update_pos rngHalf 0 stA).p_best_scores.getD 0 0
        = stA.p_best_scores.getD 0 0) := by
  have himpr : costFst (PSO_POWER.update_pos (stB.pos.getD 0 [])
      (stB.vel.getD 0 [])) < stB.p_best_scores.getD 0 0 := by
    norm_num [PSO_POWER.update_pos, vadd, stB, costFst,
      PSO_POWER.a_min, PSO_POWER.a_max]
  have htie : stA.p_best_scores.getD 0 0
      ≤ cost0 (PSO_POWER.update_pos (stA.pos.getD 0 []) (stA.vel.getD 0 [])) := by
    norm_num [stA, cost0]
  have h1 := (c5_personal_best_invariant.2 costFst PSO_POWER.update_pos rngHalf
    0 stB (by decide) (by decide)).1 himpr
  have h2 := (c5_personal_best_invariant.2 cost0 PSO_POWER.update_pos rngHalf
    0 stA (by decide) (by decide)).2 htie
  exact ⟨⟨by decide, by decide, himpr, h1⟩, ⟨htie, h2⟩⟩



/-- Claim C6: at initialization and at the end of every sweep,
`best_parti` is the index of the particle with the minimum personal-best
score — it is in range, its score is a lower bound for every particle's
score, and every strictly earlier index has a strictly larger score
(first occurrence wins on ties).  The global-best position is read as
`p_best_pos[best_parti]`. -/
theorem c6_global_best_selection :
    (∀ (cost : Vec → ℚ) (upd : Vec → Vec → Vec) (rng : ℕ → ℚ)
       (N : ℕ) (st : State), 0 < st.p_best_scores.length →
      (sweep cost upd rng N st).best_parti
          < (sweep cost upd rng N st).p_best_scores.length ∧
      (∀ j, j < (sweep cost upd rng N st).p_best_scores.length →
        (sweep cost upd rng N st).p_best_scores.getD
            ((sweep cost upd rng N st).best_parti) 0
          ≤ (sweep cost upd rng N st).p_best_scores.getD j 0) ∧
      (∀ j, j < (sweep cost upd rng N st).best_parti →
        (sweep cost upd rng N st).p_best_scores.getD
            ((sweep cost upd rng N st).best_parti) 0
          < (sweep cost upd rng N st).p_best_scores.getD j 0)) ∧
    (∀ (cost : Vec → ℚ) (pos0 : List Vec) (N D : ℕ), pos0 ≠ [] →
      (initState cost pos0 N D).best_parti
          < (initState cost pos0 N D).p_best_scores.length ∧
      (∀ j, j < (initState cost pos0 N D).p_best_scores.length →
        (initState cost pos0 N D).p_best_scores.getD
            ((initState cost pos0 N D).best_parti) 0
          ≤ (initState cost pos0 N D).p_best_scores.getD j 0) ∧
      (∀ j, j < (initState cost pos0 N D).best_parti →
        (initState cost pos0 N D).p_best_scores.getD
            ((initState cost pos0 N D).best_parti) 0
          < (initState cost pos0 N D).p_best_scores.getD j 0)) := by
  constructor
  · intro cost upd rng N st h
    have hb : (sweep cost upd rng N st).best_parti
        = argmin ((sweep cost upd rng N st).p_best_scores) := by
      rw [sweep_best_parti, sweep_scores]
    have hne : (sweep cost upd rng N st).p_best_scores ≠ [] := by
      rw [← List.length_pos, sweep_scores_length]
      exact h
    rw [hb]
    exact argmin_spec _ hne
  · intro cost pos0 N D h
    have hb : (initState cost pos0 N D).best_parti
        = argmin ((initState cost pos0 N D).p_best_scores) := rfl
    have hne : (initState cost pos0 N D).p_best_scores ≠ [] := by
      simp only [initState]
      simpa using h
    rw [hb]
    exact argmin_spec _ hne

/-- Witness for `c6_global_best_selection` at the concrete state `stB` and
a concrete initial population. -/
theorem c6_global_best_selection_witness :
    (0 < stB.p_best_scores.length ∧
      (sweep costFst PSO_POWER.update_pos rngHalf 2 stB).best_parti
        < (sweep costFst PSO_POWER.update_pos rngHalf 2 stB).p_best_scores.length) ∧
    (([[(7:ℚ)], [5]] : List Vec) ≠ [] ∧
      (initState costFst [[(7:ℚ)], [5]] 2 1).best_parti
        < (initState costFst [[(7:ℚ)], [5]] 2 1).p_best_scores.length) :=
  ⟨⟨by decide, (c6_global_best_selection.1 costFst PSO_POWER.update_pos rngHalf
      2 stB (by decide)).1⟩,
   ⟨by decide, (c6_global_best_selection.2 costFst [[(7:ℚ)], [5]] 2 1
      (by decide)).1⟩⟩

/-- Claim C8: personal-best scores never increase across a sweep
(each particle's stored score only ever decreases), hence the minimum
personal-best score — the global-best score — never regresses from one
iteration to the next, including along the actual iterate sequence started
from an initial state. -/
theorem c8_monotonic :
    (∀ (cost : Vec → ℚ) (upd : Vec → Vec → Vec) (rng : ℕ → ℚ)
       (N : ℕ) (st : State) (n : ℕ),
      (sweep cost upd rng N st).p_best_scores.getD n 0
        ≤ st.p_best_scores.getD n 0) ∧
    (∀ (cost : Vec → ℚ) (upd : Vec → Vec → Vec) (rng : ℕ → ℚ)
       (N : ℕ) (st : State), 0 < st.p_best_scores.length →
      (sweep cost upd rng N st).p_best_scores.getD
          (argmin (sweep cost upd rng N st).p_best_scores) 0
        ≤ st.p_best_scores.getD (argmin st.p_best_scores) 0) ∧
    (∀ (cost : Vec → ℚ) (upd : Vec → Vec → Vec) (rng : ℕ → ℚ)
       (pos0 : List Vec) (N D t : ℕ), 0 < pos0.length →
      (sweeps cost upd rng N (t + 1) (initState cost pos0 N D)).p_best_scores.getD
          (argmin (sweeps cost upd rng N (t + 1)
            (initState cost pos0 N D)).p_best_scores) 0
        ≤ (sweeps cost upd rng N t (initState cost pos0 N D)).p_best_scores.getD
            (argmin (sweeps cost upd rng N t
              (initState cost pos0 N D)).p_best_scores) 0) := by
  have hmin : ∀ (cost : Vec → ℚ) (upd : Vec → Vec → Vec) (rng : ℕ → ℚ)
      (N : ℕ) (st : State), 0 < st.p_best_scores.length →
      (sweep cost upd rng N st).p_best_scores.getD
          (argmin (sweep cost upd rng N st).p_best_scores) 0
        ≤ st.p_best_scores.getD (argmin st.p_best_scores) 0 := by
    intro cost upd rng N st h
    have hlen : (sweep cost upd rng N st).p_best_scores.length
        = st.p_best_scores.length := sweep_scores_length cost upd rng N st
    have hne : (sweep cost upd rng N st).p_best_scores ≠ [] := by
      rw [← List.length_pos, hlen]; exact h
    have hne0 : st.p_best_scores ≠ [] := by
      rw [← List.length_pos]; exact h
    have hspec := argmin_spec _ hne
    have hspec0 := argmin_spec _ hne0
    calc (sweep cost upd rng N st).p_best_scores.getD
            (argmin (sweep cost upd rng N st).p_best_scores) 0
        ≤ (sweep cost upd rng N st).p_best_scores.getD
            (argmin st.p_best_scores) 0 :=
          hspec.2.1 (argmin st.p_best_scores) (by rw [hlen]; exact hspec0.1)
      _ ≤ st.p_best_scores.getD (argmin st.p_best_scores) 0 :=
          sweep_scores_getD_le cost upd rng N st (argmin st.p_best_scores)
  refine ⟨fun cost upd rng N st n => sweep_scores_getD_le cost upd rng N st n,
    hmin, ?_⟩
  intro cost upd rng pos0 N D t h
  have hlen : (sweeps cost upd rng N t
      (initState cost pos0 N D)).p_best_scores.length = pos0.length := by
    rw [sweeps_scores_length]
    simp [initState]
  exact hmin cost upd rng N _ (by rw [hlen]; exact h)

/-- Witness for `c8_monotonic` at the concrete state `stB` and a concrete
initial population. -/
theorem c8_monotonic_witness :
    (0 < stB.p_best_scores.length ∧
      (sweep costFst PSO_POWER.update_pos rngHalf 2 stB).p_best_scores.getD
          (argmin (sweep costFst PSO_POWER.update_pos rngHalf 2
            stB).p_best_scores) 0
        ≤ stB.p_best_scores.getD (argmin stB.p_best_scores) 0) ∧
    (0 < ([[(7:ℚ)]] : List Vec).length ∧
      (sweeps costFst PSO_POWER.update_pos rngHalf 1 1
        (initState costFst [[(7:ℚ)]] 1 1)).p_best_scores.getD
          (argmin (sweeps costFst PSO_POWER.update_pos rngHalf 1 1
            (initState costFst [[(7:ℚ)]] 1 1)).p_best_scores) 0
        ≤ (sweeps costFst PSO_POWER.update_pos rngHalf 1 0
            (initState costFst [[(7:ℚ)]] 1 1)).p_best_scores.getD
            (argmin (sweeps costFst PSO_POWER.update_pos rngHalf 1 0
              (initState costFst [[(7:ℚ)]] 1 1)).p_best_scores) 0) :=
  ⟨⟨by decide, c8_monotonic.2.1 costFst PSO_POWER.update_pos rngHalf 2 stB
      (by decide)⟩,
   ⟨by decide, c8_monotonic.2.2 costFst PSO_POWER.update_pos rngHalf
      [[(7:ℚ)]] 1 1 0 (by decide)⟩⟩



/-- Claim C7: whenever the trajectory validity check fires (the maximum
absolute value of column 2 over the checked rows reaches 45), `evaluate`
returns exactly `10^6`, and the result does not depend on the rest of the
simulation pipeline (`RK4`/`torque` are never consulted). -/
theorem c7_penalty :
    ∀ (cyc : Vec → List (List ℚ)) (rk4 : List (List ℚ) → List ℚ × List ℚ)
      (trq : List (List ℚ) → List ℚ → List ℚ → List ℚ) (nrk : ℕ) (a : Vec),
      45 ≤ maxAbsCol2 (cyc a) nrk →
      evaluate cyc rk4 trq nrk a = 10 ^ 6 ∧
      (∀ (rk4' : List (List ℚ) → List ℚ × List ℚ)
         (trq' : List (List ℚ) → List ℚ → List ℚ → List ℚ),
        evaluate cyc rk4' trq' nrk a = 10 ^ 6) := by
  intro cyc rk4 trq nrk a h
  have key : ∀ (rk4' : List (List ℚ) → List ℚ × List ℚ)
      (trq' : List (List ℚ) → List ℚ → List ℚ → List ℚ),
      evaluate cyc rk4' trq' nrk a = 10 ^ 6 := by
    intro rk4' trq'
    simp only [evaluate]
    rw [if_pos h]
  exact ⟨key rk4 trq, key⟩

/-- Witness for `c7_penalty` on a concrete trajectory whose column-2 entry
reaches 45. -/
theorem c7_penalty_witness :
    45 ≤ maxAbsCol2 ((fun _ => [[0, 0, 45]]) ([] : Vec)) 0 ∧
    evaluate (fun _ => [[0, 0, 45]]) (fun _ => ([], []))
      (fun _ _ _ => []) 0 [] = 10 ^ 6 := by
  have h : (45:ℚ) ≤ maxAbsCol2 ((fun _ => [[0, 0, 45]]) ([] : Vec)) 0 := by
    norm_num [maxAbsCol2]
  exact ⟨h, (c7_penalty (fun _ => [[0, 0, 45]]) (fun _ => ([], []))
    (fun _ _ _ => []) 0 [] h).1⟩

/-- Claim C9: running the engine's `compute` with the unconfigured base
strategy aborts with the `NotImplementedError`-style failure raised by
`init_pos`, and the cost function `evaluate` has been called zero times at
that point — the failure happens before any evaluation. -/
theorem c9_base_fails_fast :
    ∀ (cost : Vec → ℚ) (rng : ℕ → ℚ) (D : ℕ),
      computeE base_init_pos base_update_pos cost rng D
        = (Except.error PsoErr.notImplemented, 0) := by
  intro cost rng D
  rfl

/-- Claim C10: `PSO_GAUSS4.init_pos` (resp. `PSO_GAUSS6.init_pos`) always
yields `N` vectors of the fixed length 4 (resp. 6) regardless of the
configured dimensionality `P = cfg.COMM.PARAM`, while the velocity array
allocated by `compute`'s initialization has rows of length `P`; positions
and velocities are shape-consistent iff `P` equals the strategy's fixed
dimensionality. -/
theorem c10_shape_consistency :
    ∀ (rng : ℕ → ℚ) (N P : ℕ) (cost : Vec → ℚ), 0 < N →
    ((PSO_GAUSS4.init_pos rng N).length = N ∧
      (∀ r ∈ PSO_GAUSS4.init_pos rng N, r.length = 4) ∧
      (∀ v ∈ (initState cost (PSO_GAUSS4.init_pos rng N) N P).vel,
        v.length = P) ∧
      ((∀ r ∈ PSO_GAUSS4.init_pos rng N,
        ∀ v ∈ (initState cost (PSO_GAUSS4.init_pos rng N) N P).vel,
          r.length = v.length) ↔ P = 4)) ∧
    ((PSO_GAUSS6.init_pos rng N).length = N ∧
      (∀ r ∈ PSO_GAUSS6.init_pos rng N, r.length = 6) ∧
      (∀ v ∈ (initState cost (PSO_GAUSS6.init_pos rng N) N P).vel,
        v.length = P) ∧
      ((∀ r ∈ PSO_GAUSS6.init_pos rng N,
        ∀ v ∈ (initState cost (PSO_GAUSS6.init_pos rng N) N P).vel,
          r.length = v.length) ↔ P = 6)) := by
  intro rng N P cost hN
  have hvel4 : ∀ v ∈ (initState cost (PSO_GAUSS4.init_pos rng N) N P).vel,
      v.length = P := by
    intro v hv
    simp only [initState] at hv
    rw [List.eq_of_mem_replicate hv]
    simp
  have hvel6 : ∀ v ∈ (initState cost (PSO_GAUSS6.init_pos rng N) N P).vel,
      v.length = P := by
    intro v hv
    simp only [initState] at hv
    rw [List.eq_of_mem_replicate hv]
    simp
  have hrow4 : ∀ r ∈ PSO_GAUSS4.init_pos rng N, r.length = 4 := by
    intro r hr
    simp only [PSO_GAUSS4.init_pos, List.mem_map] at hr
    obtain ⟨j, _, rfl⟩ := hr
    rfl
  have hrow6 : ∀ r ∈ PSO_GAUSS6.init_pos rng N, r.length = 6 := by
    intro r hr
    simp only [PSO_GAUSS6.init_pos, List.mem_map] at hr
    obtain ⟨j, _, rfl⟩ := hr
    rfl
  have hmem4 : [uniform rng 0 (-2/10) (2/10), uniform rng 1 (-2/10) (2/10),
      uniform rng 2 0 1, uniform rng 3 0 1] ∈ PSO_GAUSS4.init_pos rng N := by
    simp only [PSO_GAUSS4.init_pos]
    refine List.mem_map.mpr ⟨0, List.mem_range.mpr hN, by norm_num⟩
  have hmem6 : [uniform rng 0 (-2/10) (2/10), uniform rng 1 (-2/10) (2/10),
      uniform rng 2 0 1, uniform rng 3 0 1, uniform rng 4 (-1/2) (-2),
      uniform rng 5 (1/2) 2] ∈ PSO_GAUSS6.init_pos rng N := by
    simp only [PSO_GAUSS6.init_pos]
    refine List.mem_map.mpr ⟨0, List.mem_range.mpr hN, by norm_num⟩
  have hvmem4 : List.replicate P (0:ℚ)
      ∈ (initState cost (PSO_GAUSS4.init_pos rng N) N P).vel := by
    simp only [initState]
    exact List.mem_replicate.mpr ⟨hN.ne', rfl⟩
  have hvmem6 : List.replicate P (0:ℚ)
      ∈ (initState cost (PSO_GAUSS6.init_pos rng N) N P).vel := by
    simp only [initState]
    exact List.mem_replicate.mpr ⟨hN.ne', rfl⟩
  refine ⟨⟨by simp [PSO_GAUSS4.init_pos], hrow4, hvel4, ?_⟩,
    ⟨by simp [PSO_GAUSS6.init_pos], hrow6, hvel6, ?_⟩⟩
  · constructor
    · intro h
      have h4 := hrow4 _ hmem4
      have hP := hvel4 _ hvmem4
      have := h _ hmem4 _ hvmem4
      omega
    · intro hP
      subst hP
      intro r hr v hv
      rw [hrow4 r hr, hvel4 v hv]
  · constructor
    · intro h
      have h6 := hrow6 _ hmem6
      have hP := hvel6 _ hvmem6
      have := h _ hmem6 _ hvmem6
      omega
    · intro hP
      subst hP
      intro r hr v hv
      rw [hrow6 r hr, hvel6 v hv]



/-- Witness for `c10_shape_consistency` at `N = 1`, `P = 4`. -/
theorem c10_shape_consistency_witness :
    (0:ℕ) < 1 ∧
    (PSO_GAUSS4.init_pos rngHalf 1).length = 1 ∧
    ((∀ r ∈ PSO_GAUSS4.init_pos rngHalf 1,
       ∀ v ∈ (initState cost0 (PSO_GAUSS4.init_pos rngHalf 1) 1 4).vel,
         r.length = v.length) ↔ (4:ℕ) = 4) :=
  ⟨by decide, (c10_shape_consistency rngHalf 1 4 cost0 (by decide)).1.1,
    (c10_shape_consistency rngHalf 1 4 cost0 (by decide)).1.2.2.2⟩


end PsoModel
